import Mathlib

/-!
Verification development for a retrieval-augmented-generation backend.

The embedding below follows the Python source:
* `backend/ingest.py`   — `TextChunker.chunk`, `retry_with_backoff`,
  `PDFIngestor.extract_pdf_text`, `PDFIngestor.process_pdf`
* `backend/chroma_client.py` — `ChromaClient.add_chunks`, `ChromaClient.count`
* `backend/query.py`    — `PromptBuilder.build`, `QueryService.answer_query`
* `backend/app.py`      — `_process_query`

External collaborators (the HuggingFace tokenizer, the markdown converter
fed to the chunker, the embedding model, the Chroma nearest-neighbor
engine and the Gemini generation model) are modelled as opaque function
parameters carried in environment records; the orchestration logic around
them is translated statement by statement.  Machine reals (sleep delays,
embedding coordinates, cosine distances) are modelled as rationals; the
claims under study never depend on rounding.
-/

set_option autoImplicit false

deriving instance DecidableEq for Except

/-! ### Python list slicing

`tokens[start:end]` with possibly negative `start`/`end`, as used by
`TextChunker.chunk` (ingest.py lines 111-123).  A negative index counts
from the end and is clamped at 0; a nonnegative index is clamped at the
list length. -/

def pyIdx (len : Nat) (i : Int) : Nat :=
  if i < 0 then ((len : Int) + i).toNat else min i.toNat len

def pySlice (xs : List Nat) (i j : Int) : List Nat :=
  (xs.drop (pyIdx xs.length i)).take (pyIdx xs.length j - pyIdx xs.length i)

/-- Nat-level slice `xs[a:b]`; `pySlice` agrees with it on nonnegative
indices (lemma `pySlice_natCast`). -/
def sliceN (xs : List Nat) (a b : Nat) : List Nat :=
  (xs.drop a).take (b - a)

/-- Python `str.strip()`: remove leading and trailing whitespace. -/
def pyStrip (s : String) : String :=
  String.mk (((s.data.dropWhile Char.isWhitespace).reverse.dropWhile
    Char.isWhitespace).reverse)

/-! ### TextChunker (ingest.py lines 75-126)

`__init__` stores the tokenizer name, `chunk_size` and `overlap` without
any validation.  `chunk` tokenizes, then slides a window: it is modelled
here at the token level (the tokenizer encode/decode pair is an external
collaborator), with a step-indexed (fuel) loop because the Python `while`
loop does not terminate for every configuration. -/

structure TextChunker where
  tokenizer_name : String
  chunk_size : Nat
  overlap : Nat
deriving DecidableEq

/-- `TextChunker.__init__`: stores the fields; performs no validation of
`overlap` against `chunk_size`. -/
def TextChunker.init (tokenizer_name : String) (chunk_size overlap : Nat) : TextChunker :=
  ⟨tokenizer_name, chunk_size, overlap⟩

/-- `start += self.chunk_size - self.overlap` (ingest.py line 123),
over Python integers. -/
def nextStart (cs ov : Nat) (start : Int) : Int :=
  start + ((cs : Int) - (ov : Int))

/-- The `while start < len(tokens)` loop of `TextChunker.chunk`
(ingest.py lines 111-123), one unit of fuel per iteration; `none` means
the fuel ran out before the loop finished. -/
def chunkFromAux : Nat → List Nat → Nat → Nat → Int → Option (List (List Nat))
  | 0, _, _, _, _ => none
  | fuel + 1, tokens, cs, ov, start =>
    if start < (tokens.length : Int) then
      let stop : Int := min (start + (cs : Int)) (tokens.length : Int)
      if (tokens.length : Int) ≤ stop then
        some [pySlice tokens start stop]
      else
        (chunkFromAux fuel tokens cs ov (nextStart cs ov start)).map
          (fun rest => pySlice tokens start stop :: rest)
    else
      some []

/-- `TextChunker.chunk` at the token level: the produced chunk windows
(the Python code additionally decodes each window back to text).
`tokens.length + 1` units of fuel are enough whenever the loop
terminates at all (it advances `start` by at least one per iteration
when `overlap < chunk_size`). -/
def chunkTokens (tokens : List Nat) (cs ov : Nat) : Option (List (List Nat)) :=
  chunkFromAux (tokens.length + 1) tokens cs ov 0

/-- Relation between a chunk window and its successor: the earlier one is
full-size and its last `ov` tokens are exactly the first `ov` tokens of
the later one. -/
def chunkRel (cs ov : Nat) (a b : List Nat) : Prop :=
  a.length = cs ∧ ov ≤ b.length ∧ b.take ov = a.drop (cs - ov)

/-! ### retry_with_backoff (ingest.py lines 129-157)

The operation is modelled as `f : Nat → Except E A` giving the outcome of
each attempt.  The result is the returned value or raised exception
(`Except.error none` models the final `raise last_exception` firing with
`last_exception` still `None`), together with the number of invocations
of `f` and the list of delays slept, in order. -/

def retryLoop {E A : Type} (f : Nat → Except E A) (maxR : Int) :
    List Nat → ℚ → Option E → Except (Option E) A × Nat × List ℚ
  | [], _, last => (Except.error last, 0, [])
  | attempt :: rest, delay, _last =>
    match f attempt with
    | Except.ok a => (Except.ok a, 1, [])
    | Except.error e =>
      if (attempt : Int) < maxR - 1 then
        let r := retryLoop f maxR rest (delay * 2) (some e)
        (r.1, r.2.1 + 1, delay :: r.2.2)
      else
        let r := retryLoop f maxR rest delay (some e)
        (r.1, r.2.1 + 1, r.2.2)

/-- `retry_with_backoff(func, max_retries, initial_delay)`:
`for attempt in range(max_retries)` — `range` of a nonpositive bound is
empty. -/
def retry_with_backoff {E A : Type} (f : Nat → Except E A) (max_retries : Int)
    (initial_delay : ℚ) : Except (Option E) A × Nat × List ℚ :=
  retryLoop f max_retries (List.range max_retries.toNat) initial_delay none

/-! ### Chroma store (chroma_client.py) -/

/-- Metadata record stored with every chunk (ingest.py lines 268-277). -/
structure ChunkMetadata where
  doc_id : String
  source_filename : String
  page_number : Nat
  chunk_index : Nat
  ingested_at : String
deriving DecidableEq

structure StoredChunk where
  id : String
  document : String
  embedding : List ℚ
  metadata : ChunkMetadata
deriving DecidableEq

/-- `collection.add`: appends one record per id (the store itself is the
external Chroma engine; appending is its documented effect). -/
def zipRecords : List String → List String → List (List ℚ) → List ChunkMetadata →
    List StoredChunk
  | i :: is, d :: ds, e :: es, m :: ms => ⟨i, d, e, m⟩ :: zipRecords is ds es ms
  | _, _, _, _ => []

/-- `ChromaClient.add_chunks` (chroma_client.py lines 48-82).  Returns the
store after the call (or the raised `ValueError` message) and whether the
warning-level log was emitted. -/
def add_chunks (store : List StoredChunk) (ids documents : List String)
    (embeddings : List (List ℚ)) (metadatas : List ChunkMetadata) :
    Except String (List StoredChunk) × Bool :=
  if ids.isEmpty then
    (Except.ok store, true)
  else if ids.length = documents.length ∧ documents.length = embeddings.length ∧
      embeddings.length = metadatas.length then
    (Except.ok (store ++ zipRecords ids documents embeddings metadatas), false)
  else
    (Except.error "All input lists must have the same length", false)

/-- `ChromaClient.count` (chroma_client.py lines 178-180). -/
def ChromaClient.count (store : List StoredChunk) : Nat :=
  store.length

/-! ### Query pipeline (query.py, app.py) -/

/-- Flattened result of `ChromaClient.query_similar`. -/
structure QueryResults where
  ids : List String
  documents : List String
  metadatas : List ChunkMetadata
  distances : List ℚ
deriving DecidableEq

structure RetrievedChunk where
  id : String
  document : String
  metadata : ChunkMetadata
  distance : ℚ
deriving DecidableEq

structure Citation where
  source_filename : String
  page_number : Nat
  chunk_index : Nat
deriving DecidableEq

structure QueryAnswer where
  answer : String
  citations : List Citation
  retrieved_chunks : List RetrievedChunk
deriving DecidableEq

/-- The refusal sentinel (query.py line 120, app.py line 431). -/
def refusalAnswer : String := "I don\x27t know."

/-- `PromptBuilder.TEMPLATE` up to the `{context}` placeholder. -/
def promptHeader : String :=
  "Answer the question using ONLY the information from the provided context. Be direct and concise.\n\nContext:\n"

/-- `PromptBuilder.TEMPLATE` between `{context}` and `{user_question}`. -/
def promptMid : String := "\n\nQuestion:\n"

/-- `PromptBuilder.TEMPLATE` after the `{user_question}` placeholder. -/
def promptFooter : String :=
  "\n\nInstructions:\n- Provide a clear, direct answer without listing sources inline\n- Use natural conversational language\n- Be concise (2-4 sentences maximum)\n- If the context doesn\x27t contain the answer, respond with ONLY: \"I don\x27t know.\"\n- Do NOT make up information or use knowledge outside the context\n"

/-- One annotated context block (query.py lines 48-58). -/
def contextBlock (c : RetrievedChunk) : String :=
  "--- [source: " ++ c.metadata.source_filename ++ " | page: " ++
    toString c.metadata.page_number ++ " | chunk: " ++
    toString c.metadata.chunk_index ++ "] ---\n" ++ c.document

/-- `PromptBuilder.build` (query.py lines 34-70): `TEMPLATE.format` with
the context and question substituted (the extra keyword arguments passed
to `format` match no placeholder and are ignored). -/
def PromptBuilder.build (query : String) (chunks : List RetrievedChunk) : String :=
  promptHeader ++ String.intercalate "\n\n" (chunks.map contextBlock) ++
    promptMid ++ query ++ promptFooter

/-- `"quota" in str(e).lower() or "rate" in str(e).lower()` via list
infixes on the character data. -/
def strContainsSub (pat s : String) : Bool :=
  decide ( List.IsInfix pat.data s.data)

/-- Error mapping of the Gemini call (query.py lines 155-162). -/
def mapGeminiError (e : String) : String :=
  if strContainsSub "quota" e.toLower || strContainsSub "rate" e.toLower then
    "Gemini API rate limit exceeded. Please try again later."
  else
    "Gemini API error: " ++ e

/-- External collaborators of the query pipeline: the embedding model,
the Chroma nearest-neighbor engine, and the Gemini generation model. -/
structure QueryEnv where
  embed : String → List ℚ
  query_similar : List ℚ → Nat → QueryResults
  generate : String → Except String String

/-- The `for i in range(len(results["ids"]))` construction of
`retrieved_chunks` (query.py lines 126-133); `none` models the
`IndexError` raised when a parallel list is shorter than `ids`. -/
def buildZip : List String → List String → List ChunkMetadata → List ℚ →
    List RetrievedChunk
  | i :: is, d :: ds, m :: ms, q :: qs => ⟨i, d, m, q⟩ :: buildZip is ds ms qs
  | _, _, _, _ => []

def buildRetrieved (r : QueryResults) : Option (List RetrievedChunk) :=
  if r.ids.length ≤ r.documents.length ∧ r.ids.length ≤ r.metadatas.length ∧
      r.ids.length ≤ r.distances.length then
    some (buildZip r.ids r.documents r.metadatas r.distances)
  else
    none

/-- Projection of a retrieved chunk to its citation (query.py
lines 165-172). -/
def citationOf (c : RetrievedChunk) : Citation :=
  ⟨c.metadata.source_filename, c.metadata.page_number, c.metadata.chunk_index⟩

/-- `QueryService.answer_query` (query.py lines 98-180).  Besides the
result, the pair counts the invocations of the embedding model and of the
generation model during the call. -/
def answer_query (env : QueryEnv) (query : String) (k : Nat) :
    Except String QueryAnswer × Nat × Nat :=
  let query_embedding := env.embed query
  let results := env.query_similar query_embedding k
  if results.ids.isEmpty then
    (Except.ok ⟨refusalAnswer, [], []⟩, 1, 0)
  else
    match buildRetrieved results with
    | none => (Except.error "IndexError", 1, 0)
    | some retrieved_chunks =>
      match env.generate (PromptBuilder.build query retrieved_chunks) with
      | Except.error e => (Except.error (mapGeminiError e), 1, 1)
      | Except.ok text =>
        (Except.ok ⟨pyStrip text, retrieved_chunks.map citationOf, retrieved_chunks⟩, 1, 1)

/-- `_process_query` (app.py lines 417-443): short-circuits on an empty
store before touching the query service, otherwise delegates to
`answer_query` with `k = 5`. -/
def processQuery (store : List StoredChunk) (env : QueryEnv) (query : String) :
    Except String QueryAnswer × Nat × Nat :=
  if ChromaClient.count store = 0 then
    (Except.ok ⟨refusalAnswer, [], []⟩, 0, 0)
  else
    answer_query env query 5

/-! ### Ingestion pipeline (ingest.py) -/

/-- `PDFIngestor.extract_pdf_text` page loop (ingest.py lines 188-203):
each page either raises during extraction (`Except.error`) or yields its
text; text whose trimmed length is below 10 marks the page failed.
Page numbers are 1-based. -/
def extractAux : List (Except Unit String) → Nat → List (Nat × String) × List Nat
  | [], _ => ([], [])
  | p :: rest, n =>
    let r := extractAux rest (n + 1)
    match p with
    | Except.error _ => (r.1, n :: r.2)
    | Except.ok text =>
      if (pyStrip text).length < 10 then (r.1, n :: r.2) else ((n, text) :: r.1, r.2)

def extract_pdf_text (pages : List (Except Unit String)) :
    List (Nat × String) × List Nat :=
  extractAux pages 1

/-- External collaborators of the ingestion pipeline: the markdown
converter (a pure text-to-text pass whose exact output no claim depends
on), the tokenizer encode/decode pair, and the embedding model indexed by
retry attempt. -/
structure IngestEnv where
  markdown_convert : String → String
  encode : String → List Nat
  decode : List Nat → String
  embed_attempt : Nat → List String → Except String (List (List ℚ))

/-- `self.chunker.chunk(markdown_text)` with `PDFIngestor.__init__`
chunker defaults `chunk_size = 400`, `overlap = 50`; since `50 < 400` the
loop terminates and the fuel is sufficient, so the `none` fallback is
unreachable. -/
def chunkText (env : IngestEnv) (text : String) : List String :=
  match chunkTokens (env.encode text) 400 50 with
  | some ws => ws.map env.decode
  | none => []

/-- One entry of `all_chunks` (ingest.py lines 245-251). -/
structure PipeChunk where
  text : String
  page_number : Nat
  chunk_index : Nat
deriving DecidableEq

/-- The inner `for chunk_text in chunks` loop: one record per chunk,
`chunk_index` incremented per record. -/
def indexChunks (page_number idx : Nat) : List String → List PipeChunk
  | [] => []
  | t :: ts => ⟨t, page_number, idx⟩ :: indexChunks page_number (idx + 1) ts

/-- The outer `for page_num, text in page_texts` loop (ingest.py
lines 238-251): `chunk_index` continues across pages. -/
def buildAllChunksAux (env : IngestEnv) :
    List (Nat × String) → Nat → List PipeChunk
  | [], _ => []
  | (page_num, text) :: rest, idx =>
    let cs := chunkText env (env.markdown_convert text)
    indexChunks page_num idx cs ++ buildAllChunksAux env rest (idx + cs.length)

def buildAllChunks (env : IngestEnv) (page_texts : List (Nat × String)) :
    List PipeChunk :=
  buildAllChunksAux env page_texts 0

inductive IngestError where
  /-- `ValueError("No text could be extracted from PDF. ...")` -/
  | noText : IngestError
  /-- exception propagated unchanged out of `retry_with_backoff`;
  `none` is the degenerate `raise None` case. -/
  | embedFailed (e : Option String) : IngestError
  /-- exception propagated out of `ChromaClient.add_chunks`. -/
  | storeFailed (msg : String) : IngestError
deriving DecidableEq

/-- The record returned on success (ingest.py lines 289-294). -/
structure IngestResult where
  doc_id : String
  status : String
  chunks : Nat
  failed_pages : List Nat
deriving DecidableEq

/-- `PDFIngestor.process_pdf` (ingest.py lines 214-297).  `doc_id` is the
freshly generated `str(uuid.uuid4())` and `ingested_at` the timestamp,
both produced by external collaborators; the pair returned is the call
outcome together with the store contents after the call. -/
def process_pdf (env : IngestEnv) (pages : List (Except Unit String))
    (filename doc_id ingested_at : String) (store : List StoredChunk) :
    Except IngestError IngestResult × List StoredChunk :=
  let extracted := extract_pdf_text pages
  if extracted.1.isEmpty then
    (Except.error IngestError.noText, store)
  else
    let all_chunks := buildAllChunks env extracted.1
    let chunk_texts := all_chunks.map (fun c => c.text)
    match (retry_with_backoff (fun attempt => env.embed_attempt attempt chunk_texts)
        3 1).1 with
    | Except.error e => (Except.error (IngestError.embedFailed e), store)
    | Except.ok embeddings =>
      let ids := all_chunks.map (fun c => doc_id ++ "___" ++ toString c.chunk_index)
      let metadatas := all_chunks.map
        (fun c => (⟨doc_id, filename, c.page_number, c.chunk_index, ingested_at⟩ :
          ChunkMetadata))
      match (add_chunks store ids chunk_texts embeddings metadatas).1 with
      | Except.error m => (Except.error (IngestError.storeFailed m), store)
      | Except.ok store2 =>
        let status := if extracted.2.isEmpty then "ingested" else "partial"
        (Except.ok ⟨doc_id, status, all_chunks.length, extracted.2⟩, store2)

/-- Character set of `str(uuid.uuid4())`: lowercase hex digits and
hyphens. -/
def isUUIDChar (c : Char) : Bool :=
  c.isDigit || (decide ("a".front ≤ c) && decide (c ≤ "f".front)) ||
    decide (c = Char.ofNat 45)

/-! ### Concrete environments used by the witness theorems -/

def fRetryW : Nat → Except String Nat :=
  fun n => if n = 0 then Except.error "boom" else Except.ok 7

def fRetryFailW : Nat → Except String Nat :=
  fun n => Except.error (if n = 0 then "boom0" else "boom1")

def metaW : ChunkMetadata := ⟨"d", "f.pdf", 1, 0, "t"⟩

def envQueryW : QueryEnv :=
  ⟨fun _ => [], fun _ _ => ⟨[], [], [], []⟩, fun _ => Except.error "down"⟩

def envQuery8W : QueryEnv :=
  ⟨fun _ => [], fun _ _ => ⟨["a"], ["doc"], [metaW], [0]⟩,
    fun _ => Except.ok " I don\x27t know. "⟩

def chunk8W : RetrievedChunk := ⟨"a", "doc", metaW, 0⟩

def envIngestW : IngestEnv :=
  ⟨fun s => s, fun _ => [1, 2], fun _ => "c",
    fun _ texts => Except.ok (texts.map (fun _ => [(1 : ℚ)]))⟩

def pagesOkW : List (Except Unit String) := [Except.ok "abcdefghij"]

def pagesPartialW : List (Except Unit String) := [Except.ok "abcdefghij", Except.ok "x"]

def resIngestW : IngestResult := ⟨"abc-123", "ingested", 1, []⟩

def resPartialW : IngestResult := ⟨"abc-123", "partial", 1, [2]⟩

def storedW : StoredChunk := ⟨"abc-123___0", "c", [1], ⟨"abc-123", "f.pdf", 1, 0, "t"⟩⟩

/-! ### Lemmas about slices -/

theorem pySlice_natCast (xs : List Nat) (a b : Nat) :
    pySlice xs (a : Int) (b : Int) = sliceN xs a b := by
  have hIdx : ∀ n : Nat, pyIdx xs.length (n : Int) = min n xs.length := by
    intro n
    simp [pyIdx]
  unfold pySlice sliceN
  rw [hIdx, hIdx]
  by_cases ha : a ≤ xs.length
  · rw [min_eq_left ha]
    rw [List.take_eq_take]
    simp only [List.length_drop]
    omega
  · have h1 : min a xs.length = xs.length := by omega
    have h2 : xs.drop a = [] := List.drop_eq_nil_of_le (by omega)
    rw [h1]
    simp [List.drop_length, h2]

theorem length_sliceN (xs : List Nat) (a b : Nat) :
    (sliceN xs a b).length = min (b - a) (xs.length - a) := by
  simp [sliceN]

theorem take_sliceN (xs : List Nat) (a b m : Nat) :
    (sliceN xs a b).take m = sliceN xs a (min (a + m) b) := by
  simp only [sliceN, List.take_take]
  congr 1
  omega

theorem drop_sliceN (xs : List Nat) (a b m : Nat) :
    (sliceN xs a b).drop m = sliceN xs (a + m) b := by
  simp only [sliceN, List.drop_take, List.drop_drop]
  congr 1
  omega

theorem getElem_mem_sliceN (xs : List Nat) (a b i : Nat) (h1 : a ≤ i) (h2 : i < b)
    (h3 : i < xs.length) : xs[i] ∈ sliceN xs a b := by
  have hlen : i - a < (sliceN xs a b).length := by
    rw [length_sliceN]
    omega
  have hd : i - a < (xs.drop a).length := by
    simp only [List.length_drop]
    omega
  have hval : (sliceN xs a b)[i - a] = xs[i] := by
    unfold sliceN at hlen ⊢
    rw [List.getElem_take]
    rw [List.getElem_drop]
    congr 1
    omega
  rw [← hval]
  exact List.getElem_mem hlen

/-! ### The chunk loop: termination and window structure -/

theorem chunkFromAux_succ (fuel : Nat) (tokens : List Nat) (cs ov : Nat) (start : Int) :
    chunkFromAux (fuel + 1) tokens cs ov start =
      if start < (tokens.length : Int) then
        if (tokens.length : Int) ≤ min (start + (cs : Int)) (tokens.length : Int) then
          some [pySlice tokens start (min (start + (cs : Int)) (tokens.length : Int))]
        else
          (chunkFromAux fuel tokens cs ov (nextStart cs ov start)).map
            (fun rest =>
              pySlice tokens start (min (start + (cs : Int)) (tokens.length : Int)) :: rest)
      else
        some [] := rfl

theorem stop_natCast (tokens : List Nat) (cs start : Nat) :
    min ((start : Int) + (cs : Int)) ((tokens.length : Nat) : Int) =
      ((min (start + cs) tokens.length : Nat) : Int) := by
  push_cast
  rfl

/-- Main invariant of the sliding-window loop, for configurations with
`overlap < chunk_size`: with enough fuel the loop finishes, its first
window starts at `start`, every token position from `start` on is covered
by some window, and consecutive windows overlap by exactly `ov` tokens. -/
theorem chunkFromAux_spec (tokens : List Nat) (cs ov : Nat) (hov : ov < cs) :
    ∀ fuel start : Nat, start < tokens.length → tokens.length ≤ start + fuel →
    ∃ chunks : List (List Nat),
      chunkFromAux fuel tokens cs ov (start : Int) = some chunks ∧
      (∃ rest, chunks = sliceN tokens start (min (start + cs) tokens.length) :: rest) ∧
      (∀ i, start ≤ i → ∀ h : i < tokens.length, ∃ c ∈ chunks, tokens[i] ∈ c) ∧
      List.Chain' (chunkRel cs ov) chunks := by
  intro fuel
  induction fuel with
  | zero =>
    intro start h1 h2
    omega
  | succ fuel ih =>
    intro start h1 h2
    have hlt : (start : Int) < (tokens.length : Int) := by exact_mod_cast h1
    rw [chunkFromAux_succ, if_pos hlt, stop_natCast]
    by_cases hbig : tokens.length ≤ start + cs
    · have hmin : min (start + cs) tokens.length = tokens.length := by omega
      rw [hmin, if_pos (le_refl _), pySlice_natCast]
      refine ⟨[sliceN tokens start tokens.length], rfl, ⟨[], rfl⟩, ?_, ?_⟩
      · intro i hi h
        exact ⟨_, List.mem_singleton_self _,
          getElem_mem_sliceN tokens start tokens.length i hi h h⟩
      · exact List.chain'_singleton _
    · have hmin : min (start + cs) tokens.length = start + cs := by omega
      have hcond : ¬ ((tokens.length : Int) ≤ ((min (start + cs) tokens.length : Nat) : Int)) := by
        rw [hmin]
        exact_mod_cast (by omega : ¬ (tokens.length ≤ start + cs))
      rw [if_neg hcond]
      have hcast : nextStart cs ov (start : Int) = ((start + (cs - ov) : Nat) : Int) := by
        simp only [nextStart]
        push_cast [Nat.cast_sub (le_of_lt hov)]
        ring
      obtain ⟨chunks2, heq2, ⟨rest2, hhead2⟩, hcov2, hchain2⟩ :=
        ih (start + (cs - ov)) (by omega) (by omega)
      rw [hcast, heq2, Option.map_some', pySlice_natCast]
      refine ⟨_, rfl, ⟨chunks2, rfl⟩, ?_, ?_⟩
      · intro i hi h
        by_cases hic : i < start + cs
        · refine ⟨_, List.mem_cons_self _ _, ?_⟩
          exact getElem_mem_sliceN tokens start (min (start + cs) tokens.length) i hi
            (by omega) h
        · obtain ⟨c, hc, hm⟩ := hcov2 i (by omega) h
          exact ⟨c, List.mem_cons_of_mem _ hc, hm⟩
      · rw [hhead2]
        refine List.chain'_cons.mpr ⟨?_, by rw [← hhead2]; exact hchain2⟩
        refine ⟨?_, ?_, ?_⟩
        · rw [length_sliceN]
          omega
        · rw [length_sliceN]
          omega
        · rw [take_sliceN, drop_sliceN]
          congr 1
          omega

/-- With `overlap < chunk_size` the loop terminates on every input within
the default fuel. -/
theorem chunkTokens_isSome (tokens : List Nat) (cs ov : Nat) (hov : ov < cs) :
    ∃ chunks, chunkTokens tokens cs ov = some chunks := by
  rcases Nat.eq_zero_or_pos tokens.length with hz | hpos
  · refine ⟨[], ?_⟩
    unfold chunkTokens
    rw [chunkFromAux_succ, if_neg]
    rw [hz]
    exact lt_irrefl 0
  · obtain ⟨chunks, heq, _, _, _⟩ :=
      chunkFromAux_spec tokens cs ov hov (tokens.length + 1) 0 hpos (by omega)
    exact ⟨chunks, heq⟩

/-- With `overlap ≥ chunk_size` and more than `chunk_size` tokens, the
loop never finishes, whatever the fuel: the window start never moves
forward and the exit conditions stay false. -/
theorem chunkFromAux_stall (tokens : List Nat) (cs ov : Nat) (hov : cs ≤ ov)
    (hlen : cs < tokens.length) :
    ∀ (fuel : Nat) (start : Int), start ≤ 0 →
      chunkFromAux fuel tokens cs ov start = none := by
  intro fuel
  induction fuel with
  | zero =>
    intro start _
    rfl
  | succ fuel ih =>
    intro start hstart
    have hlt : start < (tokens.length : Int) := by
      have : (cs : Int) < (tokens.length : Int) := by exact_mod_cast hlen
      omega
    have hstop : min (start + (cs : Int)) (tokens.length : Int) = start + (cs : Int) := by
      have : (cs : Int) < (tokens.length : Int) := by exact_mod_cast hlen
      omega
    rw [chunkFromAux_succ, if_pos hlt, hstop, if_neg]
    · rw [ih (nextStart cs ov start) ?_]
      · rfl
      · have : (cs : Int) ≤ (ov : Int) := by exact_mod_cast hov
        simp only [nextStart]
        omega
    · have : (cs : Int) < (tokens.length : Int) := by exact_mod_cast hlen
      omega

/-! ### Lemmas about the retry loop -/

theorem retryLoop_cons_ok {E A : Type} (f : Nat → Except E A) (maxR : Int)
    (attempt : Nat) (rest : List Nat) (delay : ℚ) (last : Option E) (a : A)
    (he : f attempt = Except.ok a) :
    retryLoop f maxR (attempt :: rest) delay last = (Except.ok a, 1, []) := by
  rw [retryLoop, he]

theorem retryLoop_cons_error {E A : Type} (f : Nat → Except E A) (maxR : Int)
    (attempt : Nat) (rest : List Nat) (delay : ℚ) (last : Option E) (e : E)
    (he : f attempt = Except.error e) :
    retryLoop f maxR (attempt :: rest) delay last =
      if (attempt : Int) < maxR - 1 then
        ((retryLoop f maxR rest (delay * 2) (some e)).1,
          (retryLoop f maxR rest (delay * 2) (some e)).2.1 + 1,
          delay :: (retryLoop f maxR rest (delay * 2) (some e)).2.2)
      else
        ((retryLoop f maxR rest delay (some e)).1,
          (retryLoop f maxR rest delay (some e)).2.1 + 1,
          (retryLoop f maxR rest delay (some e)).2.2) := by
  rw [retryLoop, he]

theorem retryLoop_calls_le {E A : Type} (f : Nat → Except E A) (maxR : Int) :
    ∀ (attempts : List Nat) (delay : ℚ) (last : Option E),
      (retryLoop f maxR attempts delay last).2.1 ≤ attempts.length := by
  intro attempts
  induction attempts with
  | nil =>
    intro delay last
    simp [retryLoop]
  | cons attempt rest ih =>
    intro delay last
    cases hfa : f attempt with
    | ok a =>
      rw [retryLoop_cons_ok f maxR attempt rest delay last a hfa]
      simp
    | error e =>
      rw [retryLoop_cons_error f maxR attempt rest delay last e hfa]
      by_cases h : (attempt : Int) < maxR - 1
      · simp only [if_pos h, List.length_cons]
        have := ih (delay * 2) (some e)
        omega
      · simp only [if_neg h, List.length_cons]
        have := ih delay (some e)
        omega

/-- If attempt `i` is the first to succeed, the loop returns its value
after exactly `i + 1` invocations, having slept the doubling delays for
the `i` failures before it. -/
theorem retryLoop_first_success {E A : Type} (f : Nat → Except E A) (maxR : Int)
    (i : Nat) (a : A) (hok : f i = Except.ok a) :
    ∀ (k s : Nat) (delay : ℚ) (last : Option E),
      s ≤ i → i < s + k → ((s : Int) + (k : Int)) ≤ maxR →
      (∀ j, s ≤ j → j < i → ∃ e, f j = Except.error e) →
      retryLoop f maxR (List.range' s k) delay last =
        (Except.ok a, i + 1 - s, (List.range (i - s)).map (fun j => delay * 2 ^ j)) := by
  intro k
  induction k with
  | zero =>
    intro s delay last h1 h2 h3 h4
    omega
  | succ k ih =>
    intro s delay last h1 h2 h3 h4
    rw [List.range'_succ]
    rcases Nat.eq_or_lt_of_le h1 with rfl | hlt
    · rw [retryLoop_cons_ok f maxR s _ delay last a hok]
      simp [Nat.sub_self]
    · obtain ⟨e, he⟩ := h4 s (le_refl s) hlt
      rw [retryLoop_cons_error f maxR s _ delay last e he]
      have hsleep : (s : Int) < maxR - 1 := by
        have hk1 : 1 ≤ k := by omega
        push_cast at h3
        omega
      rw [if_pos hsleep]
      rw [ih (s + 1) (delay * 2) (some e) (by omega) (by omega)
        (by push_cast; push_cast at h3; omega) (fun j hj hj2 => h4 j (by omega) hj2)]
      have hrange : i - s = (i - (s + 1)) + 1 := by omega
      refine Prod.ext rfl (Prod.ext ?_ ?_)
      · show i + 1 - (s + 1) + 1 = i + 1 - s
        omega
      · show delay :: (List.range (i - (s + 1))).map (fun j => delay * 2 * 2 ^ j) =
          (List.range (i - s)).map (fun j => delay * 2 ^ j)
        rw [hrange, List.range_succ_eq_map, List.map_cons, List.map_map]
        refine congrArg₂ _ (by ring) ?_
        refine List.map_congr_left ?_
        intro j _
        show delay * 2 * 2 ^ j = delay * 2 ^ (j + 1)
        ring

/-- If every attempt fails, the loop raises the exception of the final
attempt (attempt `n`, where `max_retries = n + 1`), after `n + 1 - s`
invocations and `n - s` doubling sleeps. -/
theorem retryLoop_all_fail {E A : Type} (f : Nat → Except E A) (maxR : Int)
    (n : Nat) (e : E) (hmax : maxR = (n : Int) + 1) (hlast : f n = Except.error e)
    (hfail : ∀ j, j ≤ n → ∃ e2, f j = Except.error e2) :
    ∀ (k s : Nat) (delay : ℚ) (last : Option E),
      s + k = n + 1 → s ≤ n →
      retryLoop f maxR (List.range' s k) delay last =
        (Except.error (some e), n + 1 - s,
          (List.range (n - s)).map (fun j => delay * 2 ^ j)) := by
  intro k
  induction k with
  | zero =>
    intro s delay last h1 h2
    omega
  | succ k ih =>
    intro s delay last h1 h2
    rw [List.range'_succ]
    rcases Nat.eq_zero_or_pos k with hk | hk
    · subst hk
      have hsn : s = n := by omega
      subst hsn
      rw [retryLoop_cons_error f maxR s _ delay last e hlast]
      have hnosleep : ¬ ((s : Int) < maxR - 1) := by
        rw [hmax]
        omega
      rw [if_neg hnosleep]
      simp [retryLoop, Nat.sub_self]
    · have hlt : s < n := by omega
      obtain ⟨e2, he2⟩ := hfail s (by omega)
      rw [retryLoop_cons_error f maxR s _ delay last e2 he2]
      have hsleep : (s : Int) < maxR - 1 := by
        rw [hmax]
        have : (s : Int) < (n : Int) := by exact_mod_cast hlt
        omega
      rw [if_pos hsleep]
      rw [ih (s + 1) (delay * 2) (some e2) (by omega) (by omega)]
      have hrange : n - s = (n - (s + 1)) + 1 := by omega
      refine Prod.ext rfl (Prod.ext ?_ ?_)
      · show n + 1 - (s + 1) + 1 = n + 1 - s
        omega
      · show delay :: (List.range (n - (s + 1))).map (fun j => delay * 2 * 2 ^ j) =
          (List.range (n - s)).map (fun j => delay * 2 ^ j)
        rw [hrange, List.range_succ_eq_map, List.map_cons, List.map_map]
        refine congrArg₂ _ (by ring) ?_
        refine List.map_congr_left ?_
        intro j _
        show delay * 2 * 2 ^ j = delay * 2 ^ (j + 1)
        ring

/-! ### Lemmas about the ingestion pipeline -/

theorem indexChunks_length (page_number idx : Nat) (cs : List String) :
    (indexChunks page_number idx cs).length = cs.length := by
  induction cs generalizing idx with
  | nil => rfl
  | cons t ts ih => simp [indexChunks, ih]

theorem indexChunks_map_index (page_number idx : Nat) (cs : List String) :
    (indexChunks page_number idx cs).map (fun c => c.chunk_index) =
      List.range' idx cs.length := by
  induction cs generalizing idx with
  | nil => rfl
  | cons t ts ih =>
    simp only [indexChunks, List.map_cons, List.length_cons, List.range'_succ]
    rw [ih]

theorem buildAllChunksAux_map_index (env : IngestEnv) :
    ∀ (pts : List (Nat × String)) (idx : Nat),
      (buildAllChunksAux env pts idx).map (fun c => c.chunk_index) =
        List.range' idx (buildAllChunksAux env pts idx).length := by
  intro pts
  induction pts with
  | nil =>
    intro idx
    rfl
  | cons pt rest ih =>
    intro idx
    obtain ⟨page_num, text⟩ := pt
    simp only [buildAllChunksAux, List.map_append, List.length_append]
    rw [indexChunks_map_index, indexChunks_length, ih]
    have h := List.range'_append idx (chunkText env (env.markdown_convert text)).length
      (buildAllChunksAux env rest
        (idx + (chunkText env (env.markdown_convert text)).length)).length 1
    simp only [one_mul, mul_one] at h
    rw [Nat.add_comm (buildAllChunksAux env rest
      (idx + (chunkText env (env.markdown_convert text)).length)).length] at h
    exact h

theorem buildAllChunks_map_index (env : IngestEnv) (pts : List (Nat × String)) :
    (buildAllChunks env pts).map (fun c => c.chunk_index) =
      List.range (buildAllChunks env pts).length := by
  rw [List.range_eq_range']
  exact buildAllChunksAux_map_index env pts 0

theorem zipRecords_map_id :
    ∀ (ids docs : List String) (embs : List (List ℚ)) (metas : List ChunkMetadata),
      ids.length = docs.length → docs.length = embs.length → embs.length = metas.length →
      (zipRecords ids docs embs metas).map (fun r => r.id) = ids := by
  intro ids
  induction ids with
  | nil =>
    intro docs embs metas _ _ _
    rfl
  | cons i is ih =>
    intro docs embs metas h1 h2 h3
    cases docs with
    | nil => simp at h1
    | cons d ds =>
      cases embs with
      | nil => simp at h2
      | cons e es =>
        cases metas with
        | nil => simp at h3
        | cons m ms =>
          simp only [zipRecords, List.map_cons]
          rw [ih ds es ms (by simpa using h1) (by simpa using h2) (by simpa using h3)]

theorem zipRecords_map_metadata :
    ∀ (ids docs : List String) (embs : List (List ℚ)) (metas : List ChunkMetadata),
      ids.length = docs.length → docs.length = embs.length → embs.length = metas.length →
      (zipRecords ids docs embs metas).map (fun r => r.metadata) = metas := by
  intro ids
  induction ids with
  | nil =>
    intro docs embs metas h1 h2 h3
    cases metas with
    | nil => rfl
    | cons m ms =>
      exfalso
      simp at h1 h2 h3
      omega
  | cons i is ih =>
    intro docs embs metas h1 h2 h3
    cases docs with
    | nil => simp at h1
    | cons d ds =>
      cases embs with
      | nil => simp at h2
      | cons e es =>
        cases metas with
        | nil => simp at h3
        | cons m ms =>
          simp only [zipRecords, List.map_cons]
          rw [ih ds es ms (by simpa using h1) (by simpa using h2) (by simpa using h3)]

theorem zipRecords_length :
    ∀ (ids docs : List String) (embs : List (List ℚ)) (metas : List ChunkMetadata),
      ids.length = docs.length → docs.length = embs.length → embs.length = metas.length →
      (zipRecords ids docs embs metas).length = ids.length := by
  intro ids
  induction ids with
  | nil =>
    intro docs embs metas _ _ _
    rfl
  | cons i is ih =>
    intro docs embs metas h1 h2 h3
    cases docs with
    | nil => simp at h1
    | cons d ds =>
      cases embs with
      | nil => simp at h2
      | cons e es =>
        cases metas with
        | nil => simp at h3
        | cons m ms =>
          simp only [zipRecords, List.length_cons]
          rw [ih ds es ms (by simpa using h1) (by simpa using h2) (by simpa using h3)]

/-- A string over the `uuid4` character set (hex digits and hyphens)
cannot contain the `"___"` delimiter. -/
theorem not_infix_of_uuid (s : String) (h : ∀ c ∈ s.data, isUUIDChar c = true) :
    ¬ List.IsInfix "___".data s.data := by
  intro hinf
  have hu : Char.ofNat 95 ∈ s.data := hinf.subset (by decide)
  have := h _ hu
  exact absurd this (by decide)

/-- Decomposition of a successful `process_pdf` run: the store grows by
exactly the records built from `all_chunks`, and the result record's
fields are determined by extraction and chunking. -/
theorem process_pdf_ok_decomposition (env : IngestEnv) (pages : List (Except Unit String))
    (filename doc_id ingested_at : String) (store : List StoredChunk)
    (res : IngestResult) (store2 : List StoredChunk)
    (hrun : process_pdf env pages filename doc_id ingested_at store = (Except.ok res, store2)) :
    ∃ recs : List StoredChunk,
      store2 = store ++ recs
      ∧ res.doc_id = doc_id
      ∧ res.chunks = (buildAllChunks env (extract_pdf_text pages).1).length
      ∧ res.failed_pages = (extract_pdf_text pages).2
      ∧ res.status = (if (extract_pdf_text pages).2.isEmpty then "ingested" else "partial")
      ∧ recs.length = res.chunks
      ∧ recs.map (fun r => r.id) =
          (buildAllChunks env (extract_pdf_text pages).1).map
            (fun c => doc_id ++ "___" ++ toString c.chunk_index)
      ∧ recs.map (fun r => r.metadata.chunk_index) =
          (buildAllChunks env (extract_pdf_text pages).1).map (fun c => c.chunk_index) := by
  simp only [process_pdf] at hrun
  split at hrun
  · exact absurd hrun (by simp)
  · split at hrun
    · exact absurd hrun (by simp)
    · rename_i embeddings hembed
      split at hrun
      · exact absurd hrun (by simp)
      · rename_i store3 hadd
        rw [Prod.mk.injEq, Except.ok.injEq] at hrun
        obtain ⟨hres, hstore⟩ := hrun
        subst hres
        subst hstore
        simp only [add_chunks] at hadd
        split at hadd
        · rename_i hidsE
          have hac : buildAllChunks env (extract_pdf_text pages).1 = [] := by
            have := List.isEmpty_iff.mp hidsE
            exact List.map_eq_nil_iff.mp this
          refine ⟨[], ?_, rfl, rfl, rfl, rfl, ?_, ?_, ?_⟩
          · simp only [List.append_nil]
            simpa using hadd.symm
          · simp [hac]
          · simp [hac]
          · simp [hac]
        · split at hadd
          · rename_i hlen
            obtain ⟨hl1, hl2, hl3⟩ := hlen
            refine ⟨zipRecords
                ((buildAllChunks env (extract_pdf_text pages).1).map
                  (fun c => doc_id ++ "___" ++ toString c.chunk_index))
                ((buildAllChunks env (extract_pdf_text pages).1).map (fun c => c.text))
                embeddings
                ((buildAllChunks env (extract_pdf_text pages).1).map
                  (fun c => (⟨doc_id, filename, c.page_number, c.chunk_index,
                    ingested_at⟩ : ChunkMetadata))),
              ?_, rfl, rfl, rfl, rfl, ?_, ?_, ?_⟩
            · have h := hadd
              simp only at h
              exact (Except.ok.injEq _ _ ▸ h).symm
            · rw [zipRecords_length _ _ _ _ hl1 hl2 hl3]
              simp
            · exact zipRecords_map_id _ _ _ _ hl1 hl2 hl3
            · have hm := zipRecords_map_metadata _ _ _ _ hl1 hl2 hl3
              rw [show (fun r : StoredChunk => r.metadata.chunk_index) =
                  (fun m : ChunkMetadata => m.chunk_index) ∘ (fun r : StoredChunk => r.metadata)
                  from rfl,
                ← List.map_map, hm, List.map_map]
              rfl
          · exact absurd hadd (by simp)

/-! ### Claim theorems -/

/-- Claim C1: for every text whose tokenization is non-empty and every
configuration with `overlap < chunk_size`, `TextChunker.chunk` covers the
input — every token of the tokenized text appears in at least one
produced chunk window — and each pair of consecutive chunk windows shares
exactly `overlap` tokens (the earlier window's last `overlap` tokens are
the later window's first `overlap` tokens); this holds for all
consecutive pairs, in particular with no exception needed at the final
chunk. -/
theorem textChunker_chunk_coverage (tokens : List Nat) (cs ov : Nat)
    (hne : tokens ≠ []) (hov : ov < cs) :
    ∃ chunks, chunkTokens tokens cs ov = some chunks ∧
      (∀ i, ∀ h : i < tokens.length, ∃ c ∈ chunks, tokens[i] ∈ c) ∧
      List.Chain' (chunkRel cs ov) chunks := by
  have hpos : 0 < tokens.length := List.length_pos.mpr hne
  obtain ⟨chunks, heq, _, hcov, hchain⟩ :=
    chunkFromAux_spec tokens cs ov hov (tokens.length + 1) 0 hpos (by omega)
  refine ⟨chunks, ?_, ?_, hchain⟩
  · exact heq
  · intro i h
    exact hcov i (Nat.zero_le i) h

theorem textChunker_chunk_coverage_witness :
    ∃ chunks, chunkTokens [1, 2, 3, 4, 5] 3 1 = some chunks ∧
      (∀ i, ∀ h : i < ([1, 2, 3, 4, 5] : List Nat).length,
        ∃ c ∈ chunks, ([1, 2, 3, 4, 5] : List Nat)[i] ∈ c) ∧
      List.Chain' (chunkRel 3 1) chunks :=
  textChunker_chunk_coverage [1, 2, 3, 4, 5] 3 1 (by decide) (by decide)

/-- Claim C2: `TextChunker.chunk` terminates for every input under the
precondition `overlap < chunk_size` (the fixed fuel suffices); when
`overlap ≥ chunk_size` the loop update never advances the window start,
and on tokenized input longer than `chunk_size` the loop never finishes,
whatever fuel it is given; and the constructor stores any configuration
without rejecting it. -/
theorem textChunker_termination_dichotomy (tokens : List Nat) (cs ov : Nat) :
    (ov < cs → (chunkTokens tokens cs ov).isSome = true)
    ∧ (cs ≤ ov → ∀ start : Int, nextStart cs ov start ≤ start)
    ∧ (cs ≤ ov → cs < tokens.length → ∀ fuel, chunkFromAux fuel tokens cs ov 0 = none)
    ∧ (∀ name : String, ∀ a b : Nat, TextChunker.init name a b = ⟨name, a, b⟩) := by
  refine ⟨?_, ?_, ?_, fun _ _ _ => rfl⟩
  · intro hov
    obtain ⟨chunks, heq⟩ := chunkTokens_isSome tokens cs ov hov
    rw [heq]
    rfl
  · intro hle start
    have : (cs : Int) ≤ (ov : Int) := by exact_mod_cast hle
    simp only [nextStart]
    omega
  · intro hle hlen fuel
    exact chunkFromAux_stall tokens cs ov hle hlen fuel 0 (le_refl 0)

theorem textChunker_termination_dichotomy_witness :
    (chunkTokens [1, 2, 3] 2 1).isSome = true ∧
      chunkFromAux 9 [1, 2, 3] 1 1 0 = none :=
  ⟨(textChunker_termination_dichotomy [1, 2, 3] 2 1).1 (by decide),
    (textChunker_termination_dichotomy [1, 2, 3] 1 1).2.2.1 (by decide) (by decide) 9⟩

/-- Claim C6: `retry_with_backoff` invokes the wrapped operation at most
`max_retries` times; if attempt `i` is the first to succeed it returns
that result after exactly `i + 1` invocations; if all `max_retries`
invocations fail it raises the exception of the final invocation
unchanged; the waits between attempts start at `initial_delay` and double
after each failed attempt. -/
theorem retry_with_backoff_contract {E A : Type} (f : Nat → Except E A) (maxR : Nat)
    (d0 : ℚ) :
    (retry_with_backoff f (maxR : Int) d0).2.1 ≤ maxR
    ∧ (∀ i a, i < maxR → f i = Except.ok a →
        (∀ j, j < i → ∃ e, f j = Except.error e) →
        retry_with_backoff f (maxR : Int) d0 =
          (Except.ok a, i + 1, (List.range i).map (fun j => d0 * 2 ^ j)))
    ∧ (∀ e, 1 ≤ maxR → f (maxR - 1) = Except.error e →
        (∀ j, j < maxR → ∃ e2, f j = Except.error e2) →
        retry_with_backoff f (maxR : Int) d0 =
          (Except.error (some e), maxR,
            (List.range (maxR - 1)).map (fun j => d0 * 2 ^ j))) := by
  have htn : ((maxR : Int)).toNat = maxR := Int.toNat_natCast maxR
  refine ⟨?_, ?_, ?_⟩
  · have h := retryLoop_calls_le f (maxR : Int) (List.range (maxR : Int).toNat) d0 none
    unfold retry_with_backoff
    rw [htn] at h ⊢
    simpa using h
  · intro i a hi hok hfail
    unfold retry_with_backoff
    rw [htn, List.range_eq_range']
    have h := retryLoop_first_success f (maxR : Int) i a hok maxR 0 d0 none
      (Nat.zero_le i) (by omega) (by push_cast; omega)
      (fun j _ hj2 => hfail j hj2)
    simpa using h
  · intro e hpos hlast hfail
    unfold retry_with_backoff
    rw [htn, List.range_eq_range']
    obtain ⟨n, rfl⟩ : ∃ n, maxR = n + 1 := ⟨maxR - 1, by omega⟩
    have h := retryLoop_all_fail f ((n + 1 : Nat) : Int) n e (by push_cast; ring)
      (by simpa using hlast) (fun j hj => hfail j (by omega)) (n + 1) 0 d0 none
      (by omega) (by omega)
    simpa using h

theorem retry_with_backoff_contract_witness :
    retry_with_backoff fRetryW ((2 : Nat) : Int) 1 = (Except.ok 7, 2, [(1 : ℚ)]) := by
  have h := (retry_with_backoff_contract fRetryW 2 1).2.1 1 7 (by decide) (by decide)
    (fun j hj => ⟨"boom", by
      obtain rfl : j = 0 := Nat.lt_one_iff.mp hj
      rfl⟩)
  rw [h]
  norm_num [show List.range 1 = [0] from rfl]

/-- Claim C10: with `max_retries = 0` or any nonpositive value, the
attempt loop body never executes — the wrapped operation is invoked zero
times — and the call falls through to `raise last_exception` with its
never-assigned `None` value, so it produces no result (modelled as the
error payload `none`). -/
theorem retry_nonpositive_attempts {E A : Type} (f : Nat → Except E A) (d0 : ℚ)
    (m : Int) (hm : m ≤ 0) :
    retry_with_backoff f m d0 = (Except.error none, 0, []) := by
  unfold retry_with_backoff
  rw [Int.toNat_of_nonpos hm]
  rfl

theorem retry_nonpositive_attempts_witness :
    retry_with_backoff fRetryW 0 1 = (Except.error none, 0, []) :=
  retry_nonpositive_attempts fRetryW 1 0 (le_refl 0)

/-- Claim C7 counterexample: with empty `ids` but a non-empty `documents`
list the four sequences do not all have equal length, yet the call does
not fail with a validation error — the empty-`ids` no-op check runs first
and the call returns without error (emitting the warning). -/
theorem add_chunks_empty_ids_skips_validation :
    (([] : List String)).length ≠ (["d"] : List String).length ∧
      add_chunks [] [] ["d"] [] [] = (Except.ok [], true) := by
  exact ⟨by decide, rfl⟩

/-- Claim C7 (amended): if `ids` is empty the call is a no-op that emits
the warning-level signal and returns without error, regardless of the
other sequences; otherwise, if the four sequences do not all have equal
length the call fails with a validation error and appends no records;
otherwise the records are appended. -/
theorem add_chunks_amended_contract (store : List StoredChunk)
    (ids documents : List String) (embeddings : List (List ℚ))
    (metadatas : List ChunkMetadata) :
    (ids = [] → add_chunks store ids documents embeddings metadatas =
      (Except.ok store, true))
    ∧ (ids ≠ [] →
        ¬ (ids.length = documents.length ∧ documents.length = embeddings.length ∧
            embeddings.length = metadatas.length) →
        add_chunks store ids documents embeddings metadatas =
          (Except.error "All input lists must have the same length", false))
    ∧ (ids ≠ [] →
        (ids.length = documents.length ∧ documents.length = embeddings.length ∧
          embeddings.length = metadatas.length) →
        add_chunks store ids documents embeddings metadatas =
          (Except.ok (store ++ zipRecords ids documents embeddings metadatas), false)) := by
  refine ⟨?_, ?_, ?_⟩
  · intro h
    subst h
    rfl
  · intro hne hlen
    unfold add_chunks
    rw [if_neg (by simpa using hne), if_neg hlen]
  · intro hne hlen
    unfold add_chunks
    rw [if_neg (by simpa using hne), if_pos hlen]

theorem add_chunks_amended_contract_witness :
    add_chunks [] ["i"] ["d"] [[1]] [metaW] =
      (Except.ok [⟨"i", "d", [1], metaW⟩], false) := by
  have h := (add_chunks_amended_contract [] ["i"] ["d"] [[1]] [metaW]).2.2
    (by decide) (by decide)
  simpa using h

/-- Claim C4: a query against an empty store (`count() = 0`) returns the
refusal answer with empty citations and empty retrieved chunks, and
neither the embedding model nor the generation model is invoked during
the call (both invocation counters are zero). -/
theorem empty_store_query_refusal (store : List StoredChunk) (env : QueryEnv)
    (q : String) (hempty : ChromaClient.count store = 0) :
    processQuery store env q = (Except.ok ⟨refusalAnswer, [], []⟩, 0, 0) := by
  unfold processQuery
  rw [if_pos hempty]

theorem empty_store_query_refusal_witness :
    processQuery [] envQueryW "hello" = (Except.ok ⟨refusalAnswer, [], []⟩, 0, 0) :=
  empty_store_query_refusal [] envQueryW "hello" rfl

/-- Claim C8: whenever retrieval returns at least one chunk (and its
parallel lists are long enough to build them) and the generation call
succeeds with any text — including the refusal sentinel — `answer_query`
returns one citation per retrieved chunk, in retrieval order, each the
projection of that chunk's metadata, alongside the full retrieved list. -/
theorem answer_query_citation_projection (env : QueryEnv) (q : String) (k : Nat)
    (chunks : List RetrievedChunk) (text : String)
    (hne : (env.query_similar (env.embed q) k).ids ≠ [])
    (hbuild : buildRetrieved (env.query_similar (env.embed q) k) = some chunks)
    (hgen : env.generate (PromptBuilder.build q chunks) = Except.ok text) :
    answer_query env q k =
      (Except.ok ⟨pyStrip text, chunks.map citationOf, chunks⟩, 1, 1)
    ∧ (chunks.map citationOf).length = chunks.length := by
  refine ⟨?_, by simp⟩
  have hif : (env.query_similar (env.embed q) k).ids.isEmpty = false := by
    simpa using hne
  simp only [answer_query, hif, Bool.false_eq_true, if_false, hbuild, hgen]

theorem answer_query_citation_projection_witness :
    answer_query envQuery8W "q" 5 =
      (Except.ok ⟨refusalAnswer, [⟨"f.pdf", 1, 0⟩], [chunk8W]⟩, 1, 1) := by
  have h := (answer_query_citation_projection envQuery8W "q" 5 [chunk8W]
    " I don\x27t know. " (by decide) (by decide) rfl).1
  rw [h]
  decide

/-- Claim C3: an ingestion call in which extraction yields zero
successful pages fails with the no-text error before any store write:
the store contents (hence its count) are unchanged and no chunk carrying
the fresh `doc_id` is ever stored. -/
theorem process_pdf_zero_pages_no_write (env : IngestEnv)
    (pages : List (Except Unit String)) (filename doc_id ingested_at : String)
    (store : List StoredChunk)
    (hzero : (extract_pdf_text pages).1 = [])
    (hfresh : ∀ c ∈ store, c.metadata.doc_id ≠ doc_id) :
    (process_pdf env pages filename doc_id ingested_at store).1 =
      Except.error IngestError.noText
    ∧ (process_pdf env pages filename doc_id ingested_at store).2 = store
    ∧ ChromaClient.count (process_pdf env pages filename doc_id ingested_at store).2 =
        ChromaClient.count store
    ∧ ∀ c ∈ (process_pdf env pages filename doc_id ingested_at store).2,
        c.metadata.doc_id ≠ doc_id := by
  have hrun : process_pdf env pages filename doc_id ingested_at store =
      (Except.error IngestError.noText, store) := by
    unfold process_pdf
    rw [if_pos (by simp [hzero])]
  rw [hrun]
  exact ⟨rfl, rfl, rfl, hfresh⟩

theorem process_pdf_zero_pages_no_write_witness :
    (process_pdf envIngestW [Except.ok "x"] "f.pdf" "abc-123" "t" []).1 =
      Except.error IngestError.noText
    ∧ (process_pdf envIngestW [Except.ok "x"] "f.pdf" "abc-123" "t" []).2 = []
    ∧ ChromaClient.count (process_pdf envIngestW [Except.ok "x"] "f.pdf" "abc-123" "t" []).2 =
        ChromaClient.count []
    ∧ ∀ c ∈ (process_pdf envIngestW [Except.ok "x"] "f.pdf" "abc-123" "t" []).2,
        c.metadata.doc_id ≠ "abc-123" :=
  process_pdf_zero_pages_no_write envIngestW [Except.ok "x"] "f.pdf" "abc-123" "t" []
    (by decide) (fun c hc => absurd hc (List.not_mem_nil c))

/-- Claim C5: for every successful ingestion call, the stored chunk
identifiers are exactly `doc_id ++ "___" ++ chunk_index` for
`chunk_index = 0, …, n-1` where `n` is the reported chunk count — the
indices are contiguous, zero-based, and assigned sequentially across all
pages in extraction order — and the `"___"` delimiter cannot occur inside
a `uuid4`-generated `doc_id`. -/
theorem process_pdf_chunk_identity (env : IngestEnv) (pages : List (Except Unit String))
    (filename doc_id ingested_at : String) (store : List StoredChunk)
    (res : IngestResult) (store2 : List StoredChunk)
    (hrun : process_pdf env pages filename doc_id ingested_at store = (Except.ok res, store2))
    (hchar : ∀ c ∈ doc_id.data, isUUIDChar c = true) :
    ¬ List.IsInfix "___".data doc_id.data
    ∧ ∃ recs, store2 = store ++ recs
        ∧ recs.map (fun r => r.id) =
            (List.range res.chunks).map (fun i => doc_id ++ "___" ++ toString i)
        ∧ recs.map (fun r => r.metadata.chunk_index) = List.range res.chunks := by
  obtain ⟨recs, hsplit, _, hchunks, _, _, _, hids, hidx⟩ :=
    process_pdf_ok_decomposition env pages filename doc_id ingested_at store res store2 hrun
  refine ⟨not_infix_of_uuid doc_id hchar, recs, hsplit, ?_, ?_⟩
  · rw [hids, hchunks,
      show (fun c : PipeChunk => doc_id ++ "___" ++ toString c.chunk_index) =
        (fun i : Nat => doc_id ++ "___" ++ toString i) ∘ (fun c : PipeChunk => c.chunk_index)
        from rfl,
      ← List.map_map, buildAllChunks_map_index]
  · rw [hidx, hchunks, buildAllChunks_map_index]

theorem process_pdf_chunk_identity_witness :
    ¬ List.IsInfix "___".data "abc-123".data
    ∧ ∃ recs, [storedW] = [] ++ recs
        ∧ recs.map (fun r => r.id) =
            (List.range resIngestW.chunks).map (fun i => "abc-123" ++ "___" ++ toString i)
        ∧ recs.map (fun r => r.metadata.chunk_index) = List.range resIngestW.chunks :=
  process_pdf_chunk_identity envIngestW pagesOkW "f.pdf" "abc-123" "t" []
    resIngestW [storedW] (by decide) (by decide)

/-- Claim C9: a successfully completed ingestion call reports status
`"partial"` exactly when some page failed extraction (`"ingested"`
otherwise), its chunk count equals the number of records added to the
store, and its failed-pages field is the list of page numbers that failed
extraction. -/
theorem process_pdf_result_fields (env : IngestEnv) (pages : List (Except Unit String))
    (filename doc_id ingested_at : String) (store : List StoredChunk)
    (res : IngestResult) (store2 : List StoredChunk)
    (hrun : process_pdf env pages filename doc_id ingested_at store = (Except.ok res, store2)) :
    (res.status = "partial" ↔ (extract_pdf_text pages).2 ≠ [])
    ∧ (res.status = "ingested" ↔ (extract_pdf_text pages).2 = [])
    ∧ res.failed_pages = (extract_pdf_text pages).2
    ∧ ChromaClient.count store2 = ChromaClient.count store + res.chunks := by
  obtain ⟨recs, hsplit, _, _, hfailed, hstatus, hlen, _, _⟩ :=
    process_pdf_ok_decomposition env pages filename doc_id ingested_at store res store2 hrun
  refine ⟨?_, ?_, hfailed, ?_⟩
  · constructor
    · intro hp
      by_cases hf : (extract_pdf_text pages).2 = []
      · rw [hstatus, if_pos (List.isEmpty_iff.mpr hf)] at hp
        exact absurd hp (by decide)
      · exact hf
    · intro hne
      rw [hstatus, if_neg (fun h => hne (List.isEmpty_iff.mp h))]
  · constructor
    · intro hi
      by_cases hf : (extract_pdf_text pages).2 = []
      · exact hf
      · rw [hstatus, if_neg (fun h => hf (List.isEmpty_iff.mp h))] at hi
        exact absurd hi (by decide)
    · intro hf
      rw [hstatus, if_pos (List.isEmpty_iff.mpr hf)]
  · rw [hsplit]
    simp [ChromaClient.count, hlen]

theorem process_pdf_result_fields_witness :
    (resPartialW.status = "partial" ↔ (extract_pdf_text pagesPartialW).2 ≠ [])
    ∧ (resPartialW.status = "ingested" ↔ (extract_pdf_text pagesPartialW).2 = [])
    ∧ resPartialW.failed_pages = (extract_pdf_text pagesPartialW).2
    ∧ ChromaClient.count [storedW] = ChromaClient.count [] + resPartialW.chunks :=
  process_pdf_result_fields envIngestW pagesPartialW "f.pdf" "abc-123" "t" []
    resPartialW [storedW] (by decide)
